import Mathlib

/-!
Shallow embedding of `src/log.c` (luakit's logging core): verbosity
registry (`log_set_verbosity` / `log_get_verbosity`), group derivation
(`log_group_from_fct`), the emission pipeline (`va_log` / `_log`) and the
IPC log bridge (`ipc_recv_log`).

Machine strings are modelled as Lean `String` (a structure around
`List Char`); the C NUL-truncation performed by `log_get_verbosity`
(`*slash = '\0'`) is modelled by returning the final contents of the
caller's buffer alongside the result.  The C `while (TRUE)` loop in
`log_get_verbosity` is not structurally terminating (it loops forever
when the registry is initialized and neither the group, its ancestors,
nor `"all"` has an entry), so it is embedded with an explicit fuel
parameter counting hash-table lookups: `none` means the loop performed
`fuel` lookups without returning.
-/

namespace Luakit

/-- Modelled from the spec: the `log_level_t` enumeration lives in
`common/log.h`, which is not under `src/`.  The spec fixes the order
`fatal < error < warn < info < verbose < debug` with lower ordinal =
higher severity, matching the integer comparisons in `src/log.c`. -/
inductive log_level where
  | fatal | error | warn | info | verbose | debug
  deriving DecidableEq, Repr

/-- The integer value of a `log_level_t` enumerator (fatal = 0, …, debug = 5). -/
def log_level.toNat : log_level → Nat
  | .fatal => 0 | .error => 1 | .warn => 2 | .info => 3 | .verbose => 4 | .debug => 5

/-- The `group_levels` hash table: association list with unique keys from
group name (char list, as the C key is a `char *`) to the stored pointer
value, which `log_set_verbosity` sets to `lvl + 1`
(`GINT_TO_POINTER(lvl+1)`) so that a stored `fatal` (= 0) is distinct
from the NULL pointer returned on a missing key. -/
def Reg : Type := List (List Char × Nat)

/-- `g_hash_table_lookup` followed by `GPOINTER_TO_UINT`: the stored
value for the key, or 0 when the key is absent (NULL pointer). -/
def lookupNat : Reg → List Char → Nat
  | [], _ => 0
  | (k, v) :: rest, g => if k = g then v else lookupNat rest g

/-- `g_hash_table_insert`: replace the value stored under `k`, or append
a fresh entry (unique keys). -/
def insertReg : Reg → List Char → Nat → Reg
  | [], k, v => [(k, v)]
  | (k', v') :: rest, k, v =>
      if k' = k then (k, v) :: rest else (k', v') :: insertReg rest k v

/-- `log_set_verbosity` (src/log.c:32-37): lazily create the table
(`group_levels = group_levels ?: g_hash_table_new_full(...)`, modelled
as `Option Reg` with `none` = the initial NULL pointer) and store
`lvl + 1` under a copy of the group name. -/
def log_set_verbosity (reg : Option Reg) (group : String) (lvl : log_level) : Option Reg :=
  some (insertReg (reg.getD []) group.data (lvl.toNat + 1))

/-- `strrchr(group, '/')` followed by `*slash = '\0'`: the contents of
the buffer before the last `'/'`, or `none` when the string has no
slash.  Recursion prefers a slash found deeper in the list, so the
returned prefix stops at the last slash. -/
def beforeLastSlash : List Char → Option (List Char)
  | [] => none
  | c :: cs =>
      match beforeLastSlash cs with
      | some r => some (c :: r)
      | none => if c = '/' then some [] else none

/-- The tail of `log_get_verbosity`'s loop after `group = "all"`: the
literal `"all"` contains no slash, so every remaining iteration looks up
`"all"` again; each unit of fuel is one lookup. -/
def getAll : Nat → Reg → Option Nat
  | 0, _ => none
  | fuel + 1, m =>
      let v := lookupNat m "all".data
      if v > 0 then some (v - 1) else getAll fuel m

/-- The `while (TRUE)` loop of `log_get_verbosity` (src/log.c:45-54)
while the cursor still points into the caller's buffer: look the cursor
up; on a hit return `lvl - 1` together with the final buffer contents;
otherwise truncate at the last slash (mutating the buffer) or, when no
slash is left, repoint the cursor at the literal `"all"` (the buffer
stays as last truncated).  Each unit of fuel is one lookup. -/
def getLoop : Nat → Reg → List Char → Option (Nat × List Char)
  | 0, _, _ => none
  | fuel + 1, m, g =>
      let v := lookupNat m g
      if v > 0 then some (v - 1, g)
      else
        match beforeLastSlash g with
        | some g' => getLoop fuel m g'
        | none => (getAll fuel m).map (fun lvl => (lvl, g))

/-- `log_get_verbosity` (src/log.c:40-55): with a NULL table return
`LOG_LEVEL_info` (= 3) at once, leaving the buffer untouched; otherwise
run the lookup loop.  The result pairs the returned level (as the C
integer) with the final contents of the caller's string; `none` means
the loop did not return within `fuel` lookups. -/
def log_get_verbosity (fuel : Nat) (reg : Option Reg) (group : String) :
    Option (Nat × List Char) :=
  match reg with
  | none => some (log_level.info.toNat, group.data)
  | some m => getLoop fuel m group.data

/-- `log_group_from_fct` (src/log.c:57-73).  `core` is
`!strcmp(&fct[len-2], ".c")` (the last two characters are `".c"`) and
`lua` is `!strcmp(&fct[len-4], ".lua")`; `g_assert_cmpint(core,!=,lua)`
aborts unless exactly one holds, modelled as `none`.  The core branch
returns `core/` plus the name without its last 2 characters
(`"core/%.*s"` with `len-2`); the lua branch first drops one leading
`"./"` (`strncmp(fct, "./", 2)`), then returns `lua/` plus the name
without its last 4 characters. -/
def log_group_from_fct (fct : String) : Option String :=
  let r := fct.data.reverse
  let core : Bool := decide (r.take 2 = ['c', '.'])
  let lua : Bool := decide (r.take 4 = ['a', 'u', 'l', '.'])
  if core = lua then none
  else if core then some ("core/" ++ String.mk (r.drop 2).reverse)
  else
    let f := if fct.data.take 2 = ['.', '/'] then fct.data.drop 2 else fct.data
    some ("lua/" ++ String.mk (f.reverse.drop 4).reverse)

/-- `g_strdup_vprintf` restricted to string arguments: `%s` consumes the
next argument verbatim, `%%` yields a literal percent, every other
character is copied.  (Numeric conversions are never exercised by this
file's call sites, which pass only `"%s"` or literal text.) -/
def vsprintfChars : List Char → List String → List Char
  | [], _ => []
  | '%' :: 's' :: rest, a :: args => a.data ++ vsprintfChars rest args
  | '%' :: 's' :: rest, [] => vsprintfChars rest []
  | '%' :: '%' :: rest, args => '%' :: vsprintfChars rest args
  | c :: rest, args => c :: vsprintfChars rest args

def g_strdup_vprintf (fmt : String) (args : List String) : String :=
  String.mk (vsprintfChars fmt.data args)

/-- `LOG_IND` (src/log.c:124): 18 spaces. -/
def LOG_IND : List Char := List.replicate 18 ' '

/-- `g_regex_replace_literal(indent_lines_reg, msg, -1, 0, "\n" LOG_IND, 0, NULL)`
(src/log.c:133): every newline in the message is replaced by a newline
followed by the indentation string. -/
def indentChars : List Char → List Char
  | [] => []
  | '\n' :: rest => '\n' :: (LOG_IND ++ indentChars rest)
  | c :: rest => c :: indentChars rest

/-- The ESC byte that begins an ANSI escape sequence. -/
def escChar : Char := '\x1b'

/-- Modelled from the spec: `strip_ansi_escapes` lives in the
repository's `common/util.c`, which is not under `src/`.  The spec says
any ANSI escape sequences are stripped so that output contains no raw
escape bytes; each ESC byte together with its sequence body up to the
terminating letter is removed.  The boolean state is true while inside
an escape sequence (dropping characters until a letter ends it). -/
def stripAnsiAux : Bool → List Char → List Char
  | _, [] => []
  | false, c :: rest =>
      if c = escChar then stripAnsiAux true rest else c :: stripAnsiAux false rest
  | true, c :: rest =>
      if c.isAlpha then stripAnsiAux false rest else stripAnsiAux true rest

def stripAnsiChars (l : List Char) : List Char := stripAnsiAux false l

def strip_ansi_escapes (s : String) : String := String.mk (stripAnsiChars s.data)

/-- Modelled from the spec: the `ANSI_COLOR_*` macros come from a header
not under `src/`; the spec fixes fatal→background-red, error→red,
warn→yellow, with a reset sequence, so the standard SGR codes are used. -/
def ANSI_COLOR_BG_RED : String := "\x1b[41m"

def ANSI_COLOR_RED : String := "\x1b[31m"

def ANSI_COLOR_YELLOW : String := "\x1b[33m"

def ANSI_COLOR_RESET : String := "\x1b[0m"

/-- The `switch (lvl)` of src/log.c:112-120: prefix character and style
for each level value; the `default: g_assert_not_reached()` arm is
`none`. -/
def levelStyle : Nat → Option (Char × String)
  | 0 => some ('F', ANSI_COLOR_BG_RED)
  | 1 => some ('E', ANSI_COLOR_RED)
  | 2 => some ('W', ANSI_COLOR_YELLOW)
  | 3 => some ('I', "")
  | 4 => some ('V', "")
  | 5 => some ('D', "")
  | _ => none

/-- `LOG_FMT "[%#12f] %c: %s:%s: %s"` (src/log.c:123) with the elapsed
time pre-rendered (the clock is an external collaborator). -/
def composeLine (elapsed : String) (pc : Char) (fct line msg : String) : String :=
  "[" ++ elapsed ++ "] " ++ String.singleton pc ++ ": " ++ fct ++ ":" ++ line ++ ": " ++ msg

/-- Outcome of one `va_log` call: `assertFail` models a `g_assert*`
abort, `filtered` the early `return` when the level is above the
effective verbosity, and `emitted line exits` a record written to stderr
(`exits` is true when the call then runs `exit(EXIT_FAILURE)`). -/
inductive EmitOutcome where
  | assertFail
  | filtered
  | emitted (line : String) (exits : Bool)
  deriving DecidableEq, Repr

/-- `va_log` (src/log.c:96-156).  Parameters beyond the C signature:
`fuel` bounds the `log_get_verbosity` loop (`none` = the lookup did not
return), `tty` is `isatty(log_fd)`, `elapsed` the pre-rendered
`l_time() - globalconf.starttime` field.  Steps in source order: derive
the group from `fct` (asserting), resolve verbosity, filter
(`lvl > verbosity`), render the message, select prefix/style
(asserting on unknown levels), indent embedded newlines, then either
strip ANSI escapes from the message and print plain (non-tty) or wrap
the line in style and reset sequences (tty); finally `exit` on fatal. -/
def va_log (fuel : Nat) (reg : Option Reg) (lvl : Nat) (line fct : String)
    (fmt : String) (args : List String) (tty : Bool) (elapsed : String) :
    Option EmitOutcome :=
  match log_group_from_fct fct with
  | none => some .assertFail
  | some group =>
    match log_get_verbosity fuel reg group with
    | none => none
    | some (verbosity, _) =>
      if lvl > verbosity then some .filtered
      else
        let msg := g_strdup_vprintf fmt args
        match levelStyle lvl with
        | none => some .assertFail
        | some (pc, style) =>
          let msg := String.mk (indentChars msg.data)
          if tty then
            some (.emitted (style ++ composeLine elapsed pc fct line msg ++ ANSI_COLOR_RESET)
              (lvl == 0))
          else
            some (.emitted (composeLine elapsed pc fct line (strip_ansi_escapes msg))
              (lvl == 0))

/-- `_log` (src/log.c:87-94): the variadic entry point; it only
forwards its arguments to `va_log`. -/
def _log (fuel : Nat) (reg : Option Reg) (lvl : Nat) (line fct : String)
    (fmt : String) (args : List String) (tty : Bool) (elapsed : String) :
    Option EmitOutcome :=
  va_log fuel reg lvl line fct fmt args tty elapsed

/-- A deserialized Lua value on the IPC channel (only integers and
strings appear in the log payload). -/
inductive LuaValue where
  | num (n : Nat)
  | str (s : String)
  deriving DecidableEq, Repr

/-- `lua_tointeger` on a payload field.  (The C function also coerces
numeric strings; no call site in this file depends on that.) -/
def lua_tointeger : LuaValue → Nat
  | .num n => n
  | .str _ => 0

/-- `lua_tostring` on a payload field (numbers are converted to their
decimal representation). -/
def lua_tostring : LuaValue → String
  | .str s => s
  | .num n => toString n

/-- Modelled from the spec: `lua_deserialize_range`
(`common/luaserialize.c`, not under `src/`) yields the ordered fields of
the wire payload; the contract is `level:int, location:string,
callsite_id:string, message:string`. -/
def encodeLogMsg (lvl : Nat) (line fct msg : String) : List LuaValue :=
  [.num lvl, .str line, .str fct, .str msg]

/-- `ipc_recv_log` (src/log.c:158-171): deserialize the payload, assert
that it has exactly four fields (`g_assert_cmpint(n, ==, 4)`), then
replay through `_log` with format `"%s"` and the remote message as its
sole argument. -/
def ipc_recv_log (payload : List LuaValue) (fuel : Nat) (reg : Option Reg)
    (tty : Bool) (elapsed : String) : Option EmitOutcome :=
  match payload with
  | [a, b, c, d] =>
      _log fuel reg (lua_tointeger a) (lua_tostring b) (lua_tostring c)
        "%s" [lua_tostring d] tty elapsed
  | _ => some .assertFail

theorem lookupNat_insertReg (m : Reg) (k : List Char) (v : Nat) :
    lookupNat (insertReg m k v) k = v := by
  induction m with
  | nil => simp [insertReg, lookupNat]
  | cons hd tl ih =>
      obtain ⟨k', v'⟩ := hd
      by_cases h : k' = k
      · simp [insertReg, h, lookupNat]
      · simp [insertReg, h, lookupNat, ih]

theorem beforeLastSlash_length {l l' : List Char} (h : beforeLastSlash l = some l') :
    l'.length < l.length := by
  induction l generalizing l' with
  | nil => simp [beforeLastSlash] at h
  | cons c cs ih =>
      rw [beforeLastSlash] at h
      cases hb : beforeLastSlash cs with
      | some r =>
          rw [hb] at h
          cases h
          simpa using Nat.succ_lt_succ (ih hb)
      | none =>
          rw [hb] at h
          by_cases hc : c = '/'
          · simp [hc] at h
            cases h
            simp
          · simp [hc] at h

theorem beforeLastSlash_prefixOf {l l' : List Char} (h : beforeLastSlash l = some l') :
    l' <+: l := by
  induction l generalizing l' with
  | nil => simp [beforeLastSlash] at h
  | cons c cs ih =>
      rw [beforeLastSlash] at h
      cases hb : beforeLastSlash cs with
      | some r =>
          rw [hb] at h
          cases h
          exact List.cons_prefix_cons.mpr ⟨rfl, ih hb⟩
      | none =>
          rw [hb] at h
          by_cases hc : c = '/'
          · simp [hc] at h
            cases h
            exact List.nil_prefix
          · simp [hc] at h

/-- The sequence of buffer contents visited by `log_get_verbosity`'s
loop before the `group = "all"` transition: the group followed by all
its truncations at the last remaining slash. -/
def chain (l : List Char) : List (List Char) :=
  l ::
    (match h : beforeLastSlash l with
     | some l' => chain l'
     | none => [])
  termination_by l.length
  decreasing_by
  · exact beforeLastSlash_length h

theorem self_mem_chain (l : List Char) : l ∈ chain l := by
  rw [chain]
  exact List.mem_cons_self _ _

theorem chain_eq_of_slash {l l' : List Char} (h : beforeLastSlash l = some l') :
    chain l = l :: chain l' := by
  rw [chain]
  split
  · next l'' heq =>
      rw [h] at heq
      cases heq
      rfl
  · next heq =>
      rw [h] at heq
      cases heq

theorem chain_eq_of_no_slash {l : List Char} (h : beforeLastSlash l = none) :
    chain l = [l] := by
  rw [chain]
  split
  · next l'' heq =>
      rw [h] at heq
      cases heq
  · next heq => rfl

theorem getAll_eq_none {m : Reg} (h : lookupNat m "all".data = 0) :
    ∀ fuel, getAll fuel m = none := by
  intro fuel
  induction fuel with
  | zero => rfl
  | succ n ih => simp [getAll, h, ih]

/-- When neither the group, any of its truncations, nor `"all"` has an
entry, the `log_get_verbosity` loop never returns: after exhausting the
truncation chain it looks up `"all"` forever. -/
theorem getLoop_eq_none {m : Reg} {g : List Char}
    (hc : ∀ a ∈ chain g, lookupNat m a = 0) (ha : lookupNat m "all".data = 0) :
    ∀ fuel, getLoop fuel m g = none := by
  intro fuel
  induction fuel generalizing g with
  | zero => rfl
  | succ n ih =>
      have hg : lookupNat m g = 0 := hc g (self_mem_chain g)
      rw [getLoop]
      simp only [hg]
      cases hb : beforeLastSlash g with
      | some g' =>
          simp only [reduceIte, Nat.lt_irrefl]
          have hc' : ∀ a ∈ chain g', lookupNat m a = 0 := by
            intro a haMem
            exact hc a (by rw [chain_eq_of_slash hb]; exact List.mem_cons_of_mem _ haMem)
          simpa using ih hc'
      | none =>
          simp [getAll_eq_none ha n]

/-- The final contents of the caller's buffer are always a prefix of the
original group string (truncation only ever shortens at a slash). -/
theorem getLoop_buffer_prefixOf {m : Reg} {g r : List Char} {v : Nat} :
    ∀ {fuel}, getLoop fuel m g = some (v, r) → r <+: g := by
  intro fuel
  induction fuel generalizing g with
  | zero => intro h; cases h
  | succ n ih =>
      intro h
      rw [getLoop] at h
      by_cases hv : lookupNat m g > 0
      · simp only [hv, if_pos] at h
        cases h
        exact List.prefix_refl _
      · simp only [hv, if_neg, if_false] at h
        cases hb : beforeLastSlash g with
        | some g' =>
            rw [hb] at h
            exact (ih h).trans (beforeLastSlash_prefixOf hb)
        | none =>
            rw [hb] at h
            cases hga : getAll n m with
            | none => rw [hga] at h; cases h
            | some lvl =>
                rw [hga] at h
                cases h
                exact List.prefix_refl _

theorem escChar_not_mem_stripAnsiAux (l : List Char) :
    ∀ b, escChar ∉ stripAnsiAux b l := by
  induction l with
  | nil => intro b; cases b <;> simp [stripAnsiAux]
  | cons c rest ih =>
      intro b
      cases b with
      | true =>
          rw [stripAnsiAux]
          by_cases hc : c.isAlpha <;> simp only [hc, if_pos, if_neg, Bool.false_eq_true,
            if_false, if_true] <;> exact ih _
      | false =>
          rw [stripAnsiAux]
          by_cases hc : c = escChar
          · simp only [hc, if_pos]
            exact ih _
          · simp only [hc, if_neg, if_false, List.mem_cons, not_or]
            exact ⟨fun he => hc he.symm, ih _⟩

theorem escChar_not_mem_strip_ansi_escapes (s : String) :
    escChar ∉ (strip_ansi_escapes s).data :=
  escChar_not_mem_stripAnsiAux s.data false

/-- `"%s"` renders its single string argument verbatim, whatever bytes
(including `%` characters) that argument contains. -/
theorem vsprintf_percent_s (msg : String) : g_strdup_vprintf "%s" [msg] = msg := by
  cases msg with
  | mk data =>
      show String.mk (vsprintfChars ['%', 's'] [⟨data⟩]) = ⟨data⟩
      rw [vsprintfChars, vsprintfChars]
      simp

/-- Every level value in the enumeration (0..5) has a prefix character
and style: the `default: g_assert_not_reached()` arm is unreachable for
enumeration values. -/
theorem levelStyle_of_le {lvl : Nat} (h : lvl ≤ 5) :
    ∃ pc style, levelStyle lvl = some (pc, style) := by
  interval_cases lvl <;> exact ⟨_, _, rfl⟩

/-- When the group derivation and the verbosity lookup both return, a
fatal-level call (value 0) is emitted with the exit flag set: `0 > v`
is false for every natural `v`, so the filter cannot reject it, and the
style switch maps 0 to `'F'`. -/
theorem va_log_fatal_emits (fuel : Nat) (reg : Option Reg)
    (line fct fmt elapsed : String) (args : List String) (tty : Bool)
    (group : String) (v : Nat) (r : List Char)
    (hg : log_group_from_fct fct = some group)
    (hv : log_get_verbosity fuel reg group = some (v, r)) :
    ∃ L, va_log fuel reg 0 line fct fmt args tty elapsed = some (.emitted L true) := by
  simp only [va_log, hg, hv]
  have h0 : ¬ (0 > v) := by omega
  simp only [h0, if_neg, if_false]
  cases tty
  · exact ⟨_, rfl⟩
  · exact ⟨_, rfl⟩

/-- C1, counterexample.  The claim says the lookup terminates within
depth + 1 iterations and returns `info` even when unrelated groups have
been configured.  With `set("other", warn)` and the unconfigured
single-component group `"x"` (depth 0), the loop returns nothing within
1 lookup — nor within 100: after `"x"` misses it looks up `"all"`
forever. -/
theorem C1_counterexample :
    log_get_verbosity 1 (log_set_verbosity none "other" .warn) "x" = none
    ∧ log_get_verbosity 100 (log_set_verbosity none "other" .warn) "x" = none := by
  constructor
  · decide
  · decide

/-- C1, amended.  With no configured entry for the group, any of its
truncations, or `"all"`: if no group has ever been configured (the
registry is still NULL) the lookup returns `info` at once without
iterating; but once any group has been configured, the lookup never
returns, whatever iteration bound it is given. -/
theorem C1_lookup_termination_amended (g : String) (m : Reg) (fuel : Nat)
    (hc : ∀ a ∈ chain g.data, lookupNat m a = 0)
    (ha : lookupNat m "all".data = 0) :
    log_get_verbosity fuel none g = some (log_level.info.toNat, g.data)
    ∧ log_get_verbosity fuel (some m) g = none :=
  ⟨rfl, getLoop_eq_none hc ha fuel⟩

theorem C1_witness :
    log_get_verbosity 5 none "x" = some (log_level.info.toNat, "x".data)
    ∧ log_get_verbosity 5 (some [("other".data, 3)]) "x" = none :=
  C1_lookup_termination_amended "x" [("other".data, 3)] 5
    (by rw [chain_eq_of_no_slash (by decide : beforeLastSlash "x".data = none)]; decide)
    (by decide)

/-- C2, counterexample.  The claim says the caller's string is
byte-for-byte unchanged after the lookup.  With only `"all"` configured,
`get("core/foo")` resolves through `"all"` — but on the way the loop
stores a NUL over the last slash of the caller's buffer, leaving it as
`"core"`, not `"core/foo"`. -/
theorem C2_counterexample :
    log_get_verbosity 3 (log_set_verbosity none "all" .warn) "core/foo"
      = some (log_level.warn.toNat, "core".data)
    ∧ "core".data ≠ "core/foo".data := by
  constructor
  · decide
  · decide

/-- C2, amended.  The lookup reads but never writes the registry; the
caller's string, however, is truncated in place at each fallback step,
so after the call it holds some prefix of its original contents — it is
unchanged only when the group itself is found on the first lookup (and
when the registry is uninitialized). -/
theorem C2_lookup_effects_amended (fuel : Nat) (reg : Option Reg) (g : String)
    (v : Nat) (r : List Char) (m : Reg)
    (hres : log_get_verbosity fuel reg g = some (v, r))
    (hhit : lookupNat m g.data ≠ 0) :
    r <+: g.data
    ∧ log_get_verbosity (fuel + 1) (some m) g = some (lookupNat m g.data - 1, g.data) := by
  constructor
  · cases reg with
    | none =>
        cases hres
        exact List.prefix_refl _
    | some m' => exact getLoop_buffer_prefixOf hres
  · rw [log_get_verbosity, getLoop]
    simp [Nat.pos_of_ne_zero hhit]

theorem C2_witness :
    "core".data <+: "core/foo".data
    ∧ log_get_verbosity 4 (some [("core/foo".data, 3)]) "core/foo"
        = some (lookupNat [("core/foo".data, 3)] "core/foo".data - 1, "core/foo".data) :=
  C2_lookup_effects_amended 3 (log_set_verbosity none "all" .warn) "core/foo"
    log_level.warn.toNat "core".data [("core/foo".data, 3)] (by decide) (by decide)

/-- C5.  Setting a group to any level of the enumeration — including
`fatal`, whose integer value is 0 — and reading it back with no
intervening set returns exactly that level: the stored value is
`lvl + 1`, so a configured entry is never confused with the NULL pointer
of an absent one; and because the conclusion holds for every prior
registry state, a second set on the same group overwrites the first
(last write wins). -/
theorem C5_set_get_roundtrip (reg : Option Reg) (g : String) (lvl lvl' : log_level)
    (fuel : Nat) :
    log_get_verbosity (fuel + 1) (log_set_verbosity reg g lvl) g
      = some (lvl.toNat, g.data)
    ∧ log_get_verbosity (fuel + 1) (log_set_verbosity (log_set_verbosity reg g lvl') g lvl) g
      = some (lvl.toNat, g.data) := by
  have key : ∀ reg' : Option Reg,
      log_get_verbosity (fuel + 1) (log_set_verbosity reg' g lvl) g
        = some (lvl.toNat, g.data) := by
    intro reg'
    rw [log_set_verbosity, log_get_verbosity, getLoop]
    simp [lookupNat_insertReg]
  exact ⟨key reg, key (log_set_verbosity reg g lvl')⟩

/-- C6.  Hierarchical fallback: in any initialized registry with no
entry for `"core/foo/bar"` but an entry for its ancestor `"core/foo"`
(stored value `w + 1`, i.e. configured level `w`), the lookup truncates
at the last slash and returns `w` — the level of the nearest configured
ancestor. -/
theorem C6_hierarchical_fallback (m : Reg) (w fuel : Nat)
    (h1 : lookupNat m "core/foo/bar".data = 0)
    (h2 : lookupNat m "core/foo".data = w + 1) :
    log_get_verbosity (fuel + 2) (some m) "core/foo/bar"
      = some (w, "core/foo".data) := by
  rw [log_get_verbosity, getLoop]
  simp only [h1, Nat.lt_irrefl, if_false, reduceIte]
  have hb : beforeLastSlash "core/foo/bar".data = some "core/foo".data := by decide
  rw [hb]
  show getLoop (fuel + 1) m "core/foo".data = some (w, "core/foo".data)
  rw [getLoop]
  simp [h2]

theorem C6_witness :
    log_get_verbosity 2 (some [("core/foo".data, 3)]) "core/foo/bar"
      = some (log_level.warn.toNat, "core/foo".data) :=
  C6_hierarchical_fallback [("core/foo".data, 3)] 2 0 (by decide) (by decide)

/-- C3, counterexample.  The claim says script-source identifiers map
to a `script/` group; the code's lua branch prints `"lua/%.*s"`, so
`"./foo.lua"` derives the group `"lua/foo"`, not `"script/foo"`. -/
theorem C3_counterexample :
    log_group_from_fct "./foo.lua" = some "lua/foo"
    ∧ ("lua/foo" : String) ≠ "script/foo" := by
  constructor
  · decide
  · decide

/-- C3, amended.  Identifiers ending in `.c` derive `core/` followed by
the identifier without that suffix; identifiers ending in `.lua` derive
`lua/` (not `script/`) followed by the identifier without that suffix,
after one leading `"./"` marker is stripped. -/
theorem C3_group_derivation_amended (stem : String) :
    log_group_from_fct (stem ++ ".c") = some ("core/" ++ stem)
    ∧ log_group_from_fct ("./" ++ stem ++ ".lua") = some ("lua/" ++ stem)
    ∧ (stem.data.take 2 ≠ ['.', '/'] →
        log_group_from_fct (stem ++ ".lua") = some ("lua/" ++ stem)) := by
  refine ⟨?_, ?_, ?_⟩
  · have hd : (stem ++ ".c").data.reverse = 'c' :: '.' :: stem.data.reverse := by
      have h0 : (stem ++ ".c").data = stem.data ++ ['.', 'c'] := rfl
      rw [h0]
      simp
    simp [log_group_from_fct, hd]
  · have h0 : ("./" ++ stem ++ ".lua").data
        = '.' :: '/' :: (stem.data ++ ['.', 'l', 'u', 'a']) := rfl
    have hd : ("./" ++ stem ++ ".lua").data.reverse
        = 'a' :: 'u' :: 'l' :: '.' :: (stem.data.reverse ++ ['/', '.']) := by
      rw [h0]
      simp
    simp [log_group_from_fct, hd, h0]
  · intro h
    obtain ⟨sd⟩ := stem
    have h' : List.take 2 sd ≠ ['.', '/'] := h
    have h0 : ((⟨sd⟩ : String) ++ ".lua").data = sd ++ ['.', 'l', 'u', 'a'] := rfl
    have ht : List.take 2 (sd ++ ['.', 'l', 'u', 'a']) ≠ ['.', '/'] := by
      rcases sd with _ | ⟨c1, _ | ⟨c2, t⟩⟩
      · decide
      · simp [List.take]
      · intro hx
        simp [List.take] at hx
        exact h' (by simp [List.take, hx.1, hx.2])
    simp [log_group_from_fct, h0, ht]

theorem C3_witness :
    log_group_from_fct ("foo" ++ ".c") = some ("core/" ++ "foo")
    ∧ log_group_from_fct ("./" ++ "foo" ++ ".lua") = some ("lua/" ++ "foo")
    ∧ log_group_from_fct ("foo" ++ ".lua") = some ("lua/" ++ "foo") :=
  ⟨(C3_group_derivation_amended "foo").1,
   (C3_group_derivation_amended "foo").2.1,
   (C3_group_derivation_amended "foo").2.2 (by decide)⟩

/-- C4, counterexample.  The claim says a line written to a
non-terminal contains no ANSI escape bytes anywhere, including the
callsite identifier field.  `strip_ansi_escapes` is applied only to the
message, so a callsite identifier carrying an escape sequence reaches
the composed line unstripped: the emitted line still contains the ESC
byte. -/
theorem C4_counterexample :
    va_log 2 none 1 "1" "\x1b[31mx.c" "%s" ["hi"] false "0"
      = some (.emitted "[0] E: \x1b[31mx.c:1: hi" false)
    ∧ escChar ∈ ("[0] E: \x1b[31mx.c:1: hi").data := by
  constructor
  · decide
  · decide

/-- C4, amended.  When the output stream is not a terminal, escape
sequences are stripped from the message substring only (after
formatting and indentation), so no escape byte originating from the
caller's message appears in the line; the callsite identifier and
location fields are composed into the line as passed, unstripped. -/
theorem C4_nonterminal_strip_amended (fuel : Nat) (reg : Option Reg) (lvl : Nat)
    (line fct fmt elapsed L : String) (args : List String) (ex : Bool)
    (h : va_log fuel reg lvl line fct fmt args false elapsed = some (.emitted L ex)) :
    ∃ pc msg, escChar ∉ msg.data ∧ L = composeLine elapsed pc fct line msg := by
  unfold va_log at h
  split at h
  · simp at h
  · split at h
    · simp at h
    · split at h
      · simp at h
      · split at h
        · simp at h
        · next pc style hs =>
            simp only [Bool.false_eq_true, if_false, Option.some.injEq,
              EmitOutcome.emitted.injEq] at h
            exact ⟨pc, strip_ansi_escapes ⟨indentChars (g_strdup_vprintf fmt args).data⟩,
              escChar_not_mem_strip_ansi_escapes _, h.1.symm⟩

theorem C4_witness :
    ∃ pc msg, escChar ∉ msg.data
      ∧ ("[0] E: x.c:1: hi" : String) = composeLine "0" pc "x.c" "1" msg :=
  C4_nonterminal_strip_amended 2 none 1 "1" "x.c" "%s" "0" "[0] E: x.c:1: hi"
    ["hi"] false (by decide)

/-- C7.  With the group derived and the effective threshold `v`
resolved, an emit call at an enumeration level writes a record if and
only if the level's value is at most `v` (numerically less than or
equal, i.e. at least as severe); when it is above the threshold the
call returns the `filtered` outcome — no record, no exit, and the
registry was only read.  At the default threshold `info` (3), a `debug`
record (5) is filtered and an `error` record (1) is written. -/
theorem C7_level_filtering (fuel : Nat) (reg : Option Reg) (lvl : Nat)
    (line fct fmt elapsed : String) (args : List String) (tty : Bool)
    (group : String) (v : Nat) (r : List Char)
    (hg : log_group_from_fct fct = some group)
    (hv : log_get_verbosity fuel reg group = some (v, r))
    (hl : lvl ≤ 5) :
    ((∃ L ex, va_log fuel reg lvl line fct fmt args tty elapsed = some (.emitted L ex))
      ↔ lvl ≤ v)
    ∧ (v < lvl → va_log fuel reg lvl line fct fmt args tty elapsed = some .filtered) := by
  simp only [va_log, hg, hv]
  by_cases hlt : lvl > v
  · simp only [hlt, if_pos]
    constructor
    · constructor
      · rintro ⟨L, ex, hEq⟩
        simp at hEq
      · intro hle
        omega
    · trivial
  · have hle : lvl ≤ v := by omega
    simp only [hlt, if_neg, if_false]
    obtain ⟨pc, style, hs⟩ := levelStyle_of_le hl
    rw [hs]
    constructor
    · simp only [hle, iff_true]
      cases tty
      · exact ⟨_, _, rfl⟩
      · exact ⟨_, _, rfl⟩
    · intro hlt2
      exact hlt2.elim

theorem C7_witness :
    ((∃ L ex, va_log 1 none 5 "1" "x.c" "m" [] false "0" = some (.emitted L ex)) ↔ 5 ≤ 3)
    ∧ (3 < 5 → va_log 1 none 5 "1" "x.c" "m" [] false "0" = some .filtered) :=
  C7_level_filtering 1 none 5 "1" "x.c" "m" "0" [] false "core/x" 3 "core/x".data
    (by decide) (by decide) (by decide)

/-- C8.  Replaying a well-formed 4-field wire payload through
`ipc_recv_log` produces exactly the same outcome (hence the same
emitted line) as calling the local entry point `_log` directly with
`(level, location, callsite_id, "%s", message)`; the `"%s"` format
renders the remote message verbatim for every message, including ones
containing `%` directives, so the remote string is never re-interpreted
as a format string; and any payload whose field count is not exactly 4
trips the `g_assert_cmpint(n, ==, 4)` internal-consistency abort. -/
theorem C8_ipc_equivalence (lvl : Nat) (line fct msg elapsed : String) (fuel : Nat)
    (reg : Option Reg) (tty : Bool) :
    ipc_recv_log (encodeLogMsg lvl line fct msg) fuel reg tty elapsed
      = _log fuel reg lvl line fct "%s" [msg] tty elapsed
    ∧ g_strdup_vprintf "%s" [msg] = msg
    ∧ ∀ payload : List LuaValue, payload.length ≠ 4 →
        ipc_recv_log payload fuel reg tty elapsed = some .assertFail := by
  refine ⟨rfl, vsprintf_percent_s msg, ?_⟩
  intro p hp
  rcases p with _ | ⟨a, _ | ⟨b, _ | ⟨c, _ | ⟨d, _ | ⟨e, t⟩⟩⟩⟩⟩
  · rfl
  · rfl
  · rfl
  · rfl
  · exact absurd (by simp) hp
  · rfl

theorem C8_witness :
    (ipc_recv_log (encodeLogMsg 1 "42" "mod.c" "boom") 2 none false "0"
      = _log 2 none 1 "42" "mod.c" "%s" ["boom"] false "0")
    ∧ g_strdup_vprintf "%s" ["boom"] = "boom"
    ∧ ipc_recv_log [] 2 none false "0" = some .assertFail :=
  ⟨(C8_ipc_equivalence 1 "42" "mod.c" "boom" "0" 2 none false).1,
   (C8_ipc_equivalence 1 "42" "mod.c" "boom" "0" 2 none false).2.1,
   (C8_ipc_equivalence 1 "42" "mod.c" "boom" "0" 2 none false).2.2 [] (by decide)⟩

/-- C9.  A fatal-level call (value 0) that resolves its group and
threshold is emitted — the outcome carries the fully composed record
line together with the exit flag, modelling the `exit(EXIT_FAILURE)`
(non-zero status) performed after the write; and for every level, an
emitted record has the exit flag set if and only if the level is
`fatal`, so no other level terminates the process. -/
theorem C9_fatal_termination (fuel : Nat) (reg : Option Reg)
    (line fct fmt elapsed : String) (args : List String) (tty : Bool) :
    (∀ group v r, log_group_from_fct fct = some group →
        log_get_verbosity fuel reg group = some (v, r) →
        ∃ L, va_log fuel reg 0 line fct fmt args tty elapsed = some (.emitted L true))
    ∧ (∀ lvl L ex, va_log fuel reg lvl line fct fmt args tty elapsed
        = some (.emitted L ex) → (ex = true ↔ lvl = 0)) := by
  constructor
  · intro group v r hg hv
    exact va_log_fatal_emits fuel reg line fct fmt elapsed args tty group v r hg hv
  · intro lvl L ex h
    unfold va_log at h
    split at h
    · simp at h
    · split at h
      · simp at h
      · split at h
        · simp at h
        · split at h
          · simp at h
          · split at h <;>
            · simp only [Option.some.injEq, EmitOutcome.emitted.injEq] at h
              rw [← h.2]
              simp

theorem C9_witness :
    (∃ L, va_log 1 none 0 "1" "x.c" "m" [] false "0" = some (.emitted L true))
    ∧ (true = true ↔ (0 : Nat) = 0) :=
  ⟨(C9_fatal_termination 1 none "1" "x.c" "m" "0" [] false).1 "core/x" 3 "core/x".data
      (by decide) (by decide),
   (C9_fatal_termination 1 none "1" "x.c" "m" "0" [] false).2 0 "[0] F: x.c:1: m" true
      (by decide)⟩

/-- C10.  Whenever the threshold lookup returns a value `v`, a
fatal-level emit (value 0, the lowest ordinal) passes the filter check:
`0 > v` is false for every natural `v`, so the call is never filtered —
it is emitted (with the exit flag) under every registry state and every
resolvable group. -/
theorem C10_fatal_never_filtered (fuel : Nat) (reg : Option Reg)
    (line fct fmt elapsed : String) (args : List String) (tty : Bool)
    (group : String) (v : Nat) (r : List Char)
    (hg : log_group_from_fct fct = some group)
    (hv : log_get_verbosity fuel reg group = some (v, r)) :
    va_log fuel reg 0 line fct fmt args tty elapsed ≠ some .filtered
    ∧ ∃ L, va_log fuel reg 0 line fct fmt args tty elapsed = some (.emitted L true) := by
  obtain ⟨L, hL⟩ := va_log_fatal_emits fuel reg line fct fmt elapsed args tty group v r hg hv
  constructor
  · rw [hL]
    simp
  · exact ⟨L, hL⟩

theorem C10_witness :
    va_log 1 none 0 "1" "x.c" "m" [] false "0" ≠ some .filtered
    ∧ ∃ L, va_log 1 none 0 "1" "x.c" "m" [] false "0" = some (.emitted L true) :=
  C10_fatal_never_filtered 1 none "1" "x.c" "m" "0" [] false "core/x" 3 "core/x".data
    (by decide) (by decide)

end Luakit
